import Mathlib

/-!
Verification development for the CloudFormation-to-Terraform converter
(`bedrock-ai-converter.py`).

The file embeds the two algorithmic cores of the program:

* the reply sanitizer in `BedrockConverter.call_bedrock` (source lines 51-55):
  three `re.sub` passes in `MULTILINE` mode followed by `str.strip()`;
* the sixteen CloudFormation short-hand tag constructors registered on the
  YAML `SafeLoader` (source lines 10-25), together with the loader's
  behaviour on plain nodes and on unknown tags;
* the control flow of `convert` around the Bedrock call (lines 158-179) and
  the `--region` command-line handling (lines 181-186).

Strings are modelled as `List Char` (Python `str` is a sequence of code
points).  The regex passes are modelled character by character with the
exact leftmost, non-overlapping, backtracking semantics of Python `re.sub`
for the three concrete patterns involved.
-/

namespace CftToTf

/-- The characters matched by Python's `\s` (ASCII range) and stripped by
`str.strip()`: space, tab, newline, carriage return, vertical tab, form feed. -/
def pySpace (c : Char) : Bool :=
  (c == ' ') || (c == '\t') || (c == '\n') || (c == '\r') || (c == '\x0b') || (c == '\x0c')

/-- The backtick character (written via a string literal). -/
def btick : Char := String.front "```"

/-- Match `\s*\n` with greedy backtracking against a prefix of `s`: returns
the number of characters consumed (the whitespace run truncated after its
last newline), or `none` when no prefix matches. -/
def wsNl : List Char → Option Nat
  | [] => none
  | c :: cs =>
    if pySpace c then
      match wsNl cs with
      | some n => some (n + 1)
      | none => if c == '\n' then some 1 else none
    else none

/-- Match `\s*$` (MULTILINE `$`) with greedy backtracking against a prefix of
`s`: returns the number of characters consumed, or `none`.  `$` holds at the
end of the string and immediately before a `'\n'`. -/
def wsDollar : List Char → Option Nat
  | [] => some 0
  | c :: cs =>
    if pySpace c then
      match wsDollar cs with
      | some n => some (n + 1)
      | none => if c == '\n' then some 0 else none
    else none

/-- Try one alternative of the language-hint group `(?:hcl|terraform|tf)?`:
if `h` is a literal prefix of `r`, match `\s*\n` after it. -/
def tryHint (h : String) (r : List Char) : Option Nat :=
  if h.toList.isPrefixOf r then (wsNl (r.drop h.toList.length)).map (· + h.toList.length)
  else none

/-- Match the pattern `^```(?:hcl|terraform|tf)?\s*\n` (the `^` anchor is
checked by the caller) against a prefix of `s`, with the ordered alternation
semantics of the regex engine.  Returns the match length. -/
def matchOpen (s : List Char) : Option Nat :=
  if ("```".toList).isPrefixOf s then
    let r := s.drop 3
    (tryHint "hcl" r <|> tryHint "terraform" r <|> tryHint "tf" r <|> tryHint "" r).map (· + 3)
  else none

/-- Global substitution of `^```(?:hcl|terraform|tf)?\s*\n` by the empty
string (first `re.sub`, source line 51).  `skip` counts characters of a
match still to be consumed, `atLS` records whether the current position is
at a line start (MULTILINE `^`).  Matches are found leftmost and
non-overlapping, exactly as `re.sub` does. -/
def sub1Go : Nat → Bool → List Char → List Char
  | _, _, [] => []
  | k + 1, _, c :: cs => sub1Go k (c == '\n') cs
  | 0, atLS, c :: cs =>
    if atLS then
      match matchOpen (c :: cs) with
      | some n => sub1Go (n - 1) (c == '\n') cs
      | none => c :: sub1Go 0 (c == '\n') cs
    else c :: sub1Go 0 (c == '\n') cs

/-- Global substitution of `\n```\s*$` by the empty string (second `re.sub`,
source line 52). -/
def sub2Go : Nat → List Char → List Char
  | _, [] => []
  | k + 1, _ :: cs => sub2Go k cs
  | 0, c :: cs =>
    if ("\n```".toList).isPrefixOf (c :: cs) then
      match wsDollar (cs.drop 3) with
      | some n => sub2Go (3 + n) cs
      | none => c :: sub2Go 0 cs
    else c :: sub2Go 0 cs

/-- Does the current position satisfy the MULTILINE `$` anchor? -/
def lineEnd : List Char → Bool
  | [] => true
  | c :: _ => c == '\n'

/-- Global substitution of `^```$` by the empty string (third `re.sub`,
source line 53). -/
def sub3Go : Nat → Bool → List Char → List Char
  | _, _, [] => []
  | k + 1, _, c :: cs => sub3Go k (c == '\n') cs
  | 0, atLS, c :: cs =>
    if atLS && ("```".toList).isPrefixOf (c :: cs) && lineEnd (cs.drop 2) then
      sub3Go 2 (c == '\n') cs
    else c :: sub3Go 0 (c == '\n') cs

/-- Python `str.strip()`: remove leading and trailing whitespace. -/
def pyStrip (s : List Char) : List Char :=
  ((s.dropWhile pySpace).reverse.dropWhile pySpace).reverse

/-- The reply sanitizer of `call_bedrock` (source lines 51-55): the three
`re.sub` passes applied in order, then `.strip()`. -/
def sanitize (s : List Char) : List Char :=
  pyStrip (sub3Go 0 true (sub2Go 0 (sub1Go 0 true s)))

/-- Does `pat` occur as a contiguous substring of `s`? -/
def containsSeq (pat : List Char) : List Char → Bool
  | [] => pat.isEmpty
  | c :: cs => pat.isPrefixOf (c :: cs) || containsSeq pat cs

/-- Is the head of `s` (when present) a non-whitespace character? -/
def headNotWs : List Char → Bool
  | [] => true
  | c :: _ => !pySpace c

/-- A character that cannot take part in any fence-pattern match: neither
whitespace nor a backtick. -/
def plainChar (c : Char) : Bool := !pySpace c && !(c == btick)

example : sanitize ("```hcl\nresource \"x\" \x7b\x7d\n```").toList
    = ("resource \"x\" \x7b\x7d").toList := by decide
example : sanitize ("```\n\nresource\n\n```\n").toList = ("resource").toList := by decide
example : sanitize ("plain text").toList = ("plain text").toList := by decide
example : sanitize ("```hcl\nA\n```\nB\n```\nC\n```").toList = ("A\nB\nC").toList := by decide
example : sanitize ("  ```\nfoo").toList = ("```\nfoo").toList := by decide
example : sanitize (sanitize ("  ```\nfoo").toList) = ("foo").toList := by decide
example : sanitize ("```HCL\nfoo").toList = ("```HCL\nfoo").toList := by decide
example : sanitize ("```tf \nfoo\n```").toList = ("foo").toList := by decide
example : sanitize ("```terraform\nfoo\n``` ").toList = ("foo").toList := by decide
example : sanitize ("a\n``` x").toList = ("a\n``` x").toList := by decide
example : sanitize ("```python\nfoo\n```").toList = ("```python\nfoo").toList := by decide

/-! ## The tag-extending YAML loader (source lines 10-25, 63-64)

A YAML representation node: a scalar, sequence or mapping, each optionally
carrying one of the `!`-short-hand tags.  Mapping keys are plain strings
(the documents fed to the converter use string keys). -/

inductive Node where
  | scalar (tag : Option String) (value : List Char)
  | seq (tag : Option String) (items : List Node)
  | map (tag : Option String) (pairs : List (String × Node))
deriving Repr

/-- The canonical tree produced by `yaml.safe_load`. -/
inductive Value where
  | str (s : List Char)
  | vseq (items : List Value)
  | vmap (pairs : List (String × Value))
deriving Repr

/-- The ways construction can fail, mirroring PyYAML's `ConstructorError`:
an undefined tag (`construct_undefined`), or a registered constructor
applied to a node of the wrong kind (`construct_scalar` /
`construct_sequence` on a mismatched node). -/
inductive CErr where
  | unknownTag (tag : String)
  | expectedScalar (tag : String)
  | expectedSequence (tag : String)
deriving Repr

/-- The kind of handler a registered tag uses: `construct_scalar` wrapped
under a long-form name, `construct_sequence` wrapped under a long-form
name, or the special `!GetAtt` handler that splits the scalar on `'.'`. -/
inductive Handler where
  | scalarH (long : String)
  | seqH (long : String)
  | getAttH
deriving Repr

/-- The constructor registry built by the sixteen
`yaml.SafeLoader.add_constructor` calls (source lines 10-25), in source
order. -/
def constructorTable : List (String × Handler) :=
  [("!Ref", .scalarH "Ref"),
   ("!Sub", .scalarH "Fn::Sub"),
   ("!GetAtt", .getAttH),
   ("!Join", .seqH "Fn::Join"),
   ("!Select", .seqH "Fn::Select"),
   ("!GetAZs", .scalarH "Fn::GetAZs"),
   ("!Split", .seqH "Fn::Split"),
   ("!Base64", .scalarH "Fn::Base64"),
   ("!Cidr", .seqH "Fn::Cidr"),
   ("!ImportValue", .scalarH "Fn::ImportValue"),
   ("!FindInMap", .seqH "Fn::FindInMap"),
   ("!If", .seqH "Fn::If"),
   ("!Equals", .seqH "Fn::Equals"),
   ("!Not", .seqH "Fn::Not"),
   ("!And", .seqH "Fn::And"),
   ("!Or", .seqH "Fn::Or")]

/-- The sixteen recognised short-hand tags. -/
def knownTags : List String := constructorTable.map Prod.fst

/-- Python `str.split(sep)` for a one-character separator: split on every
occurrence; the empty string splits to `[""]`. -/
def splitOnCh (sep : Char) : List Char → List (List Char)
  | [] => [[]]
  | c :: cs =>
    match splitOnCh sep cs with
    | [] => [[]]
    | h :: t => if c == sep then [] :: h :: t else (c :: h) :: t

mutual

/-- Construct the canonical value of a node under the tag-extended
`SafeLoader`: plain nodes are constructed structurally; a tagged node is
dispatched through the registry; a tag absent from the registry raises
`ConstructorError` (modelled as `CErr.unknownTag`). -/
def construct : Node → Except CErr Value
  | .scalar none v => .ok (.str v)
  | .seq none items => (constructList items).map Value.vseq
  | .map none pairs => (constructPairs pairs).map Value.vmap
  | .scalar (some t) v =>
    match constructorTable.lookup t with
    | some (.scalarH long) => .ok (.vmap [(long, .str v)])
    | some .getAttH => .ok (.vmap [("Fn::GetAtt", .vseq ((splitOnCh '.' v).map Value.str))])
    | some (.seqH _) => .error (.expectedSequence t)
    | none => .error (.unknownTag t)
  | .seq (some t) items =>
    match constructorTable.lookup t with
    | some (.seqH long) => (constructList items).map (fun vs => Value.vmap [(long, .vseq vs)])
    | some (.scalarH _) => .error (.expectedScalar t)
    | some .getAttH => .error (.expectedScalar t)
    | none => .error (.unknownTag t)
  | .map (some t) pairs =>
    match constructorTable.lookup t with
    | some (.seqH _) => .error (.expectedSequence t)
    | some (.scalarH _) => .error (.expectedScalar t)
    | some .getAttH => .error (.expectedScalar t)
    | none =>
      let _ := pairs
      .error (.unknownTag t)

/-- Construct each element of a sequence in order, propagating the first
error (PyYAML's `construct_sequence`). -/
def constructList : List Node → Except CErr (List Value)
  | [] => .ok []
  | n :: ns => do
    let v ← construct n
    let vs ← constructList ns
    pure (v :: vs)

/-- Construct each value of a mapping in order, propagating the first
error. -/
def constructPairs : List (String × Node) → Except CErr (List (String × Value))
  | [] => .ok []
  | (k, n) :: ps => do
    let v ← construct n
    let vs ← constructPairs ps
    pure ((k, v) :: vs)

end

mutual

/-- The unmodified `SafeLoader` (no `add_constructor` calls): plain nodes
are constructed structurally, every `!`-tag is undefined. -/
def basicConstruct : Node → Except CErr Value
  | .scalar none v => .ok (.str v)
  | .scalar (some t) _ => .error (.unknownTag t)
  | .seq none items => (basicConstructList items).map Value.vseq
  | .seq (some t) _ => .error (.unknownTag t)
  | .map none pairs => (basicConstructPairs pairs).map Value.vmap
  | .map (some t) _ => .error (.unknownTag t)

/-- The map of `basicConstruct` over a sequence. -/
def basicConstructList : List Node → Except CErr (List Value)
  | [] => .ok []
  | n :: ns => do
    let v ← basicConstruct n
    let vs ← basicConstructList ns
    pure (v :: vs)

/-- The map of `basicConstruct` over mapping pairs. -/
def basicConstructPairs : List (String × Node) → Except CErr (List (String × Value))
  | [] => .ok []
  | (k, n) :: ps => do
    let v ← basicConstruct n
    let vs ← basicConstructPairs ps
    pure ((k, v) :: vs)

end

mutual

/-- Does some node of the document carry tag `t`? -/
def hasTag (t : String) : Node → Bool
  | .scalar u _ => u == some t
  | .seq u items => u == some t || hasTagList t items
  | .map u pairs => u == some t || hasTagPairs t pairs

/-- The disjunction of `hasTag` over a sequence. -/
def hasTagList (t : String) : List Node → Bool
  | [] => false
  | n :: ns => hasTag t n || hasTagList t ns

/-- The disjunction of `hasTag` over mapping pairs. -/
def hasTagPairs (t : String) : List (String × Node) → Bool
  | [] => false
  | (_, n) :: ps => hasTag t n || hasTagPairs t ps

end

mutual

/-- Does the document consist only of plain (untagged) nodes? -/
def noTags : Node → Bool
  | .scalar u _ => u.isNone
  | .seq u items => u.isNone && noTagsList items
  | .map u pairs => u.isNone && noTagsPairs pairs

/-- The conjunction of `noTags` over a sequence. -/
def noTagsList : List Node → Bool
  | [] => true
  | n :: ns => noTags n && noTagsList ns

/-- The conjunction of `noTags` over mapping pairs. -/
def noTagsPairs : List (String × Node) → Bool
  | [] => true
  | (_, n) :: ps => noTags n && noTagsPairs ps

end

example : construct (.scalar (some "!Ref") "MyVpc".toList)
    = .ok (.vmap [("Ref", .str "MyVpc".toList)]) := by simp [construct, constructorTable, List.lookup]
example : construct (.scalar (some "!GetAtt") "A.B".toList)
    = .ok (.vmap [("Fn::GetAtt", .vseq [.str "A".toList, .str "B".toList])]) := by
  simp [construct, constructorTable, List.lookup, splitOnCh]
example : construct (.scalar (some "!Foo") "x".toList) = .error (.unknownTag "!Foo") := by
  simp [construct, constructorTable, List.lookup]

/-! ## The `convert` control flow around the Bedrock call (lines 158-179) -/

/-- The diagnostic printed by the `except` clause of `call_bedrock`
(source line 57). -/
def diagLine (e : List Char) : List Char := "Bedrock error: ".toList ++ e

/-- Result of one `call_bedrock` invocation: the lines it printed, how many
times the Bedrock endpoint was invoked, and either the sanitized reply or
the re-raised exception. -/
structure CallResult where
  printed : List (List Char)
  endpointCalls : Nat
  result : Except (List Char) (List Char)

/-- The body of `call_bedrock` (source lines 32-58) with the network exchange abstracted
as its outcome `resp`: on success the reply text is sanitized and returned;
on failure one diagnostic line is printed and the same exception is
re-raised.  The endpoint is invoked exactly once either way. -/
def callBedrock (resp : Except (List Char) (List Char)) : CallResult :=
  match resp with
  | .ok text => { printed := [], endpointCalls := 1, result := .ok (sanitize text) }
  | .error e => { printed := [diagLine e], endpointCalls := 1, result := .error e }

/-- Observable trace of one `convert` run: lines printed, Bedrock
invocations, files written (path, content), and the outcome (`.ok true`
mirrors `return True`; `.error` is the propagated exception). -/
structure RunTrace where
  printed : List (List Char)
  bedrockCalls : Nat
  written : List (String × List Char)
  outcome : Except (List Char) Bool

/-- The Markdown report assembled by `convert` (source lines 164-173). -/
def reportContent (cftFile : String) (tfCode original : List Char) : List Char :=
  "# AI-Powered CloudFormation to Terraform Conversion\n\n".toList
  ++ ("## Source Template\n**File:** `" ++ cftFile ++ "`\n\n").toList
  ++ "**Converted:** Using AWS Bedrock Nova Pro (us.amazon.nova-pro-v1:0)\n\n".toList
  ++ "---\n\n## Generated Terraform Code\n\n```hcl\n".toList
  ++ tfCode
  ++ "\n```\n\n---\n\n## Original CloudFormation Template\n\n```yaml\n".toList
  ++ original
  ++ "\n```\n".toList

/-- The body of `convert` (source lines 158-179) from the point where the prompt is
submitted: `stem` is `Path(cft_file).stem`, `original` the raw template
text, `resp` the outcome of the Bedrock exchange.  On failure the exception
from `call_bedrock` propagates before either output file is written; on
success the translation file and then the report are written. -/
def convert (cftFile stem outputDir : String) (original : List Char)
    (resp : Except (List Char) (List Char)) : RunTrace :=
  let pre := ("Calling Bedrock to convert " ++ cftFile ++ "...").toList
  let r := callBedrock resp
  match r.result with
  | .error e =>
    { printed := pre :: r.printed
      bedrockCalls := r.endpointCalls
      written := []
      outcome := .error e }
  | .ok tfCode =>
    { printed := pre :: r.printed ++ [("✓ Converted " ++ cftFile).toList]
      bedrockCalls := r.endpointCalls
      written := [(outputDir ++ "/" ++ stem ++ ".tf", tfCode),
                  (outputDir ++ "/CONVERSION_REPORT.md", reportContent cftFile tfCode original)]
      outcome := .ok true }

/-! ## Command-line region handling (source lines 181-186) -/

/-- The `--region` handling of `__main__`: if the flag is present and a
value follows its first occurrence, that value is used; otherwise the
default region constant. -/
def mainRegion (argv : List String) : String :=
  if "--region" ∈ argv then
    let idx := argv.indexOf "--region"
    if idx + 1 < argv.length then argv.getD (idx + 1) "us-east-1" else "us-east-1"
  else "us-east-1"

example : mainRegion ["conv.py", "a.yaml", "out", "--region", "eu-west-1"] = "eu-west-1" := by
  decide
example : mainRegion ["conv.py", "a.yaml", "out", "--region"] = "us-east-1" := by decide
example : mainRegion ["conv.py", "a.yaml", "out"] = "us-east-1" := by decide

/-! ## Helper lemmas: behaviour of the sanitizer on fence-free text -/

lemma containsSeq_cons_eq_false {pat : List Char} {c : Char} {cs : List Char}
    (h : containsSeq pat (c :: cs) = false) :
    pat.isPrefixOf (c :: cs) = false ∧ containsSeq pat cs = false := by
  have h' : (pat.isPrefixOf (c :: cs) || containsSeq pat cs) = false := h
  simpa using h'

lemma isPrefixOf_true_iff {l1 l2 : List Char} : l1.isPrefixOf l2 = true ↔ l1 <+: l2 :=
  List.isPrefixOf_iff_prefix

lemma contains_of_isPrefixOf {pat s : List Char} (h : pat.isPrefixOf s = true) :
    containsSeq pat s = true := by
  cases s with
  | nil =>
    cases pat with
    | nil => rfl
    | cons p ps => simp [List.isPrefixOf] at h
  | cons c cs => simp [containsSeq, h]

lemma matchOpen_eq_none {s : List Char} (h : ("```".toList).isPrefixOf s = false) :
    matchOpen s = none := by
  unfold matchOpen
  rw [h]
  rfl

lemma sub1Go_id {s : List Char} (h : containsSeq ("```".toList) s = false) :
    ∀ f, sub1Go 0 f s = s := by
  induction s with
  | nil => intro f; rfl
  | cons c cs ih =>
    intro f
    obtain ⟨h1, h2⟩ := containsSeq_cons_eq_false h
    cases f <;>
      · simp only [sub1Go]
        rw [matchOpen_eq_none h1]
        simp [ih h2]

lemma nl_fence_isPrefixOf_false {c : Char} {cs : List Char}
    (h2 : containsSeq ("```".toList) cs = false) :
    ("\n```".toList).isPrefixOf (c :: cs) = false := by
  cases hp : ("\n```".toList).isPrefixOf (c :: cs) with
  | false => rfl
  | true =>
    exfalso
    have he : ("\n```".toList) = '\n' :: "```".toList := rfl
    rw [he] at hp
    simp only [List.isPrefixOf, Bool.and_eq_true] at hp
    have := contains_of_isPrefixOf hp.2
    rw [h2] at this
    exact Bool.false_ne_true this

lemma sub2Go_id {s : List Char} (h : containsSeq ("```".toList) s = false) :
    sub2Go 0 s = s := by
  induction s with
  | nil => rfl
  | cons c cs ih =>
    obtain ⟨h1, h2⟩ := containsSeq_cons_eq_false h
    simp only [sub2Go]
    rw [nl_fence_isPrefixOf_false h2]
    simp [ih h2]

lemma sub3Go_id {s : List Char} (h : containsSeq ("```".toList) s = false) :
    ∀ f, sub3Go 0 f s = s := by
  induction s with
  | nil => intro f; rfl
  | cons c cs ih =>
    intro f
    obtain ⟨h1, h2⟩ := containsSeq_cons_eq_false h
    simp only [sub3Go]
    rw [h1]
    simp [ih h2]

lemma dropWhile_head_false {p : Char → Bool} (l : List Char) {c : Char} {rest : List Char}
    (h : l.dropWhile p = c :: rest) : p c = false := by
  induction l generalizing c rest with
  | nil => simp [List.dropWhile] at h
  | cons a as ih =>
    by_cases ha : p a = true
    · rw [List.dropWhile_cons, if_pos ha] at h
      exact ih h
    · rw [List.dropWhile_cons, if_neg ha] at h
      obtain ⟨rfl, -⟩ : a = c ∧ as = rest := by
        injection h with h1 h2; exact ⟨h1, h2⟩
      simpa using ha

lemma dropWhile_pySpace_idem (l : List Char) :
    (l.dropWhile pySpace).dropWhile pySpace = l.dropWhile pySpace := by
  cases hd : l.dropWhile pySpace with
  | nil => rfl
  | cons c cs =>
    have hc := dropWhile_head_false l hd
    rw [List.dropWhile_cons, if_neg (by simp [hc])]

lemma pyStrip_idem (l : List Char) : pyStrip (pyStrip l) = pyStrip l := by
  unfold pyStrip
  set u := l.dropWhile pySpace with hu
  set w := u.reverse.dropWhile pySpace with hw
  have h1 : w.reverse.dropWhile pySpace = w.reverse := by
    cases hwr : w.reverse with
    | nil => rfl
    | cons c cs =>
      have hpre : w.reverse <+: u := by
        have hsuf : w <:+ u.reverse := by rw [hw]; exact List.dropWhile_suffix _
        have hiff := @List.reverse_suffix Char w.reverse u
        rw [List.reverse_reverse] at hiff
        exact hiff.mp hsuf
      obtain ⟨t, ht⟩ := hpre
      rw [hwr] at ht
      have hcu : u.dropWhile pySpace = u := by rw [hu]; exact dropWhile_pySpace_idem l
      have hu2 : u.dropWhile pySpace = c :: (cs ++ t) := by rw [hcu, ← ht]; simp
      have hc : pySpace c = false := dropWhile_head_false u hu2
      rw [List.dropWhile_cons, if_neg (by simp [hc])]
  rw [h1, List.reverse_reverse]
  have h2 : w.dropWhile pySpace = w := by
    rw [hw]
    exact dropWhile_pySpace_idem _
  rw [h2]

lemma pyStrip_infix_self (l : List Char) : pyStrip l <:+: l := by
  unfold pyStrip
  have h1 : l.dropWhile pySpace <:+ l := List.dropWhile_suffix _
  have h2 : ((l.dropWhile pySpace).reverse.dropWhile pySpace).reverse <+: l.dropWhile pySpace := by
    have hsuf : (l.dropWhile pySpace).reverse.dropWhile pySpace <:+ (l.dropWhile pySpace).reverse :=
      List.dropWhile_suffix _
    have hiff := @List.reverse_suffix Char
      (((l.dropWhile pySpace).reverse.dropWhile pySpace).reverse) (l.dropWhile pySpace)
    rw [List.reverse_reverse] at hiff
    exact hiff.mp hsuf
  exact h2.isInfix.trans h1.isInfix

lemma containsSeq_true_iff {pat s : List Char} : containsSeq pat s = true ↔ pat <:+: s := by
  induction s with
  | nil => simp [containsSeq, List.isEmpty_iff]
  | cons c cs ih => simp [containsSeq, List.infix_cons_iff, ih, isPrefixOf_true_iff]

lemma containsSeq_false_mono {pat s t : List Char} (hts : t <:+: s)
    (h : containsSeq pat s = false) : containsSeq pat t = false := by
  cases hct : containsSeq pat t with
  | false => rfl
  | true =>
    exfalso
    have : containsSeq pat s = true :=
      containsSeq_true_iff.mpr ((containsSeq_true_iff.mp hct).trans hts)
    rw [h] at this
    exact Bool.false_ne_true this

/-- On text with no fence marker the sanitizer only trims surrounding
whitespace. -/
lemma sanitize_eq_pyStrip {x : List Char} (h : containsSeq ("```".toList) x = false) :
    sanitize x = pyStrip x := by
  unfold sanitize
  rw [sub1Go_id h true, sub2Go_id h, sub3Go_id h true]

/-! ## Helper lemmas: stepping the three passes through fence lines and
plain text -/

lemma pySpace_facts : pySpace '\n' = true ∧ pySpace 'h' = false ∧ pySpace 'c' = false
    ∧ pySpace 'l' = false ∧ pySpace 't' = false ∧ pySpace 'e' = false ∧ pySpace 'r' = false
    ∧ pySpace 'a' = false ∧ pySpace 'f' = false ∧ pySpace 'o' = false ∧ pySpace 'm' = false := by
  decide

lemma plain_not_ws {c : Char} (h : plainChar c = true) : pySpace c = false := by
  have h' : (!pySpace c && !(c == btick)) = true := h
  simp only [Bool.and_eq_true, Bool.not_eq_true'] at h'
  exact h'.1

lemma plain_not_btick {c : Char} (h : plainChar c = true) : (c == btick) = false := by
  have h' : (!pySpace c && !(c == btick)) = true := h
  simp only [Bool.and_eq_true, Bool.not_eq_true'] at h'
  exact h'.2

lemma plain_not_nl {c : Char} (h : plainChar c = true) : (c == '\n') = false := by
  cases hnl : c == '\n' with
  | false => rfl
  | true =>
    exfalso
    have hceq : c = '\n' := by simpa using hnl
    subst hceq
    exact absurd (plain_not_ws h) (by decide)

lemma fence_isPrefixOf_false {c : Char} (hcb : (c == btick) = false) (X : List Char) :
    ("```".toList).isPrefixOf (c :: X) = false := by
  cases hp : ("```".toList).isPrefixOf (c :: X) with
  | false => rfl
  | true =>
    exfalso
    have hpre : ("```".toList : List Char) <+: (c :: X) := isPrefixOf_true_iff.mp hp
    have e : ("```".toList : List Char) = btick :: btick :: btick :: [] := by decide
    rw [e] at hpre
    obtain ⟨t, ht⟩ := hpre
    have : btick = c := by injection ht
    rw [← this] at hcb
    simp at hcb

lemma nlfence_isPrefixOf_false_cons {d : Char} (hd : (d == btick) = false) (ds : List Char) :
    ("\n```".toList).isPrefixOf ('\n' :: d :: ds) = false := by
  cases hp : ("\n```".toList).isPrefixOf ('\n' :: d :: ds) with
  | false => rfl
  | true =>
    exfalso
    have hpre := isPrefixOf_true_iff.mp hp
    have e : ("\n```".toList : List Char) = '\n' :: btick :: btick :: btick :: [] := by decide
    rw [e] at hpre
    obtain ⟨t, ht⟩ := hpre
    have hbd : btick = d := by
      injection ht with h1 h2
      injection h2
    rw [← hbd] at hd
    simp at hd

lemma nlfence_isPrefixOf_false_head {c : Char} (hcnl : (c == '\n') = false) (X : List Char) :
    ("\n```".toList).isPrefixOf (c :: X) = false := by
  cases hp : ("\n```".toList).isPrefixOf (c :: X) with
  | false => rfl
  | true =>
    exfalso
    have hpre := isPrefixOf_true_iff.mp hp
    have e : ("\n```".toList : List Char) = '\n' :: btick :: btick :: btick :: [] := by decide
    rw [e] at hpre
    obtain ⟨t, ht⟩ := hpre
    have hnc : '\n' = c := by injection ht
    rw [← hnc] at hcnl
    simp at hcnl

lemma sub1Go_fence_hcl (rest : List Char) (hr : headNotWs rest = true) :
    sub1Go 0 true ("```hcl\n".toList ++ rest) = sub1Go 0 true rest := by
  cases rest with
  | nil => simp [sub1Go, matchOpen, tryHint, wsNl, List.isPrefixOf, pySpace_facts]
  | cons c rs =>
    have hc : pySpace c = false := by simpa [headNotWs] using hr
    simp [sub1Go, matchOpen, tryHint, wsNl, List.isPrefixOf, pySpace_facts, hc]

lemma sub1Go_fence_terraform (rest : List Char) (hr : headNotWs rest = true) :
    sub1Go 0 true ("```terraform\n".toList ++ rest) = sub1Go 0 true rest := by
  cases rest with
  | nil => simp [sub1Go, matchOpen, tryHint, wsNl, List.isPrefixOf, pySpace_facts]
  | cons c rs =>
    have hc : pySpace c = false := by simpa [headNotWs] using hr
    simp [sub1Go, matchOpen, tryHint, wsNl, List.isPrefixOf, pySpace_facts, hc]

lemma sub1Go_fence_tf (rest : List Char) (hr : headNotWs rest = true) :
    sub1Go 0 true ("```tf\n".toList ++ rest) = sub1Go 0 true rest := by
  cases rest with
  | nil => simp [sub1Go, matchOpen, tryHint, wsNl, List.isPrefixOf, pySpace_facts]
  | cons c rs =>
    have hc : pySpace c = false := by simpa [headNotWs] using hr
    simp [sub1Go, matchOpen, tryHint, wsNl, List.isPrefixOf, pySpace_facts, hc]

lemma sub1Go_fence_bare (rest : List Char) (hr : headNotWs rest = true) :
    sub1Go 0 true ("```\n".toList ++ rest) = sub1Go 0 true rest := by
  cases rest with
  | nil => simp [sub1Go, matchOpen, tryHint, wsNl, List.isPrefixOf, pySpace_facts]
  | cons c rs =>
    have hc : pySpace c = false := by simpa [headNotWs] using hr
    simp [sub1Go, matchOpen, tryHint, wsNl, List.isPrefixOf, pySpace_facts, hc]

lemma sub1Go_nl (s : List Char) (f : Bool) :
    sub1Go 0 f ('\n' :: s) = '\n' :: sub1Go 0 true s := by
  have hm : matchOpen ('\n' :: s) = none := matchOpen_eq_none (fence_isPrefixOf_false (by decide) s)
  cases f <;> simp [sub1Go, hm]

lemma sub1Go_plain_cons (c : Char) (hc : plainChar c = true) (s : List Char) (f : Bool) :
    sub1Go 0 f (c :: s) = c :: sub1Go 0 false s := by
  have hm : matchOpen (c :: s) = none :=
    matchOpen_eq_none (fence_isPrefixOf_false (plain_not_btick hc) _)
  have hnl : (c == '\n') = false := plain_not_nl hc
  cases f
  · simp only [sub1Go]
    rw [if_neg (by simp), hnl]
  · simp only [sub1Go]
    rw [if_pos trivial, hm]
    simp [hnl]

lemma sub1Go_plain (a : List Char) (ha : a.all plainChar = true) (hne : a ≠ [])
    (s : List Char) (f : Bool) : sub1Go 0 f (a ++ s) = a ++ sub1Go 0 false s := by
  induction a generalizing f with
  | nil => exact absurd rfl hne
  | cons c cs ih =>
    simp only [List.all_cons, Bool.and_eq_true] at ha
    obtain ⟨hc, hcs⟩ := ha
    rw [List.cons_append, sub1Go_plain_cons c hc _ f]
    cases cs with
    | nil => rfl
    | cons d ds =>
      rw [ih hcs (by simp) false]
      rfl

lemma sub1Go_final_fence : sub1Go 0 true ("```".toList) = "```".toList := by decide

lemma sub2Go_step (c : Char) (hcnl : (c == '\n') = false) (s : List Char) :
    sub2Go 0 (c :: s) = c :: sub2Go 0 s := by
  have hp := nlfence_isPrefixOf_false_head hcnl s
  simp only [sub2Go]
  rw [hp]
  simp

lemma sub2Go_plain (a : List Char) (ha : a.all plainChar = true) (s : List Char) :
    sub2Go 0 (a ++ s) = a ++ sub2Go 0 s := by
  induction a with
  | nil => simp
  | cons c cs ih =>
    simp only [List.all_cons, Bool.and_eq_true] at ha
    obtain ⟨hc, hcs⟩ := ha
    rw [List.cons_append, sub2Go_step c (plain_not_nl hc) _, ih hcs]
    rfl

lemma sub2Go_nl_cons (d : Char) (hd : (d == btick) = false) (ds : List Char) :
    sub2Go 0 ('\n' :: d :: ds) = '\n' :: sub2Go 0 (d :: ds) := by
  have hp := nlfence_isPrefixOf_false_cons hd ds
  simp only [sub2Go]
  rw [hp]
  simp

lemma sub2Go_final_fence : sub2Go 0 ("\n```".toList) = [] := by decide

lemma containsSeq_fence_eq_false (s : List Char) (h : ∀ x ∈ s, (x == btick) = false) :
    containsSeq ("```".toList) s = false := by
  induction s with
  | nil => decide
  | cons c cs ih =>
    simp only [containsSeq]
    rw [fence_isPrefixOf_false (h c (List.mem_cons_self c cs)) cs,
      ih (fun x hx => h x (List.mem_cons_of_mem c hx))]
    rfl

lemma dropWhile_eq_self_of_head {l : List Char} (h : headNotWs l = true) :
    l.dropWhile pySpace = l := by
  cases l with
  | nil => rfl
  | cons c cs =>
    have hc : pySpace c = false := by simpa [headNotWs] using h
    rw [List.dropWhile_cons, if_neg (by simp [hc])]

lemma pyStrip_eq_self {l : List Char} (h1 : headNotWs l = true)
    (h2 : headNotWs l.reverse = true) : pyStrip l = l := by
  unfold pyStrip
  rw [dropWhile_eq_self_of_head h1, dropWhile_eq_self_of_head h2, List.reverse_reverse]

lemma headNotWs_reverse_append (X cc : List Char) (hcne : cc ≠ [])
    (hc : cc.all plainChar = true) : headNotWs (X ++ cc).reverse = true := by
  rw [List.reverse_append]
  cases hcr : cc.reverse with
  | nil => exact absurd (by simpa using hcr) hcne
  | cons y ys =>
    have hy : y ∈ cc := by
      have : y ∈ cc.reverse := by rw [hcr]; exact List.mem_cons_self _ _
      simpa using this
    have hpy : plainChar y = true := by
      rw [List.all_eq_true] at hc
      exact hc y hy
    simp [headNotWs, plain_not_ws hpy]

lemma headNotWs_append_plain {a : List Char} (hne : a ≠ []) (ha : a.all plainChar = true)
    (x : List Char) : headNotWs (a ++ x) = true := by
  cases a with
  | nil => exact absurd rfl hne
  | cons c cs =>
    simp only [List.all_cons, Bool.and_eq_true] at ha
    simp [headNotWs, plain_not_ws ha.1]

lemma nlfence_nl_split (Q : List Char) :
    "\n```\n".toList ++ Q = '\n' :: ("```\n".toList ++ Q) := by
  have e : ("\n```\n".toList : List Char) = '\n' :: "```\n".toList := by decide
  rw [e]
  rfl

lemma nlfence_split : ("\n```".toList : List Char) = '\n' :: "```".toList := by decide

lemma sub3strip_no_fence {u : List Char} (hno : ∀ x ∈ u, (x == btick) = false)
    (h1 : headNotWs u = true) (h2 : headNotWs u.reverse = true) :
    pyStrip (sub3Go 0 true u) = u := by
  rw [sub3Go_id (containsSeq_fence_eq_false u hno) true, pyStrip_eq_self h1 h2]

/-! ## Claim theorems for the reply sanitizer -/

/-- C1, counterexample: the three substitutions are global, so in a text
with several fenced blocks the interior fence lines are removed as well,
contradicting the claim that every interior fence line is left in the
output unchanged.  On `"```hcl\nA\n```\nB\n```\nC\n```"` the sanitizer
returns `"A\nB\nC"`, not the claimed `"A\n```\nB\n```\nC"`. -/
theorem c1_counterexample :
    sanitize ("```hcl\nA\n```\nB\n```\nC\n```".toList) = "A\nB\nC".toList
      ∧ ("A\nB\nC".toList : List Char) ≠ "A\n```\nB\n```\nC".toList := by
  decide

/-- C1 (amended): the reply sanitizer's fence removal is global, not
limited to the outermost fences: in a reply consisting of a lowercase
`hcl`-hinted opening fence line, plain text `a`, a bare fence line, plain
text `b`, another bare fence line, plain text `c`, and a final bare fence,
every fence line — interior ones included — is removed, leaving
`a\nb\nc`. -/
theorem c1_global_fence_removal (a b cc : List Char)
    (ha : a.all plainChar = true) (hane : a ≠ [])
    (hb : b.all plainChar = true) (hbne : b ≠ [])
    (hcc : cc.all plainChar = true) (hccne : cc ≠ []) :
    sanitize ("```hcl\n".toList ++ a ++ "\n```\n".toList ++ b ++ "\n```\n".toList
        ++ cc ++ "\n```".toList)
      = a ++ '\n' :: b ++ '\n' :: cc := by
  obtain ⟨b0, bs, rfl⟩ : ∃ b0 bs, b = b0 :: bs := by
    cases b with
    | nil => exact absurd rfl hbne
    | cons b0 bs => exact ⟨b0, bs, rfl⟩
  obtain ⟨c0, ccs, rfl⟩ : ∃ c0 ccs, cc = c0 :: ccs := by
    cases cc with
    | nil => exact absurd rfl hccne
    | cons c0 ccs => exact ⟨c0, ccs, rfl⟩
  have hb0 : plainChar b0 = true ∧ bs.all plainChar = true := by
    simpa only [List.all_cons, Bool.and_eq_true] using hb
  have hc0 : plainChar c0 = true ∧ ccs.all plainChar = true := by
    simpa only [List.all_cons, Bool.and_eq_true] using hcc
  unfold sanitize
  simp only [List.append_assoc]
  rw [sub1Go_fence_hcl _ (headNotWs_append_plain hane ha _),
    sub1Go_plain a ha hane _ true,
    nlfence_nl_split, sub1Go_nl,
    sub1Go_fence_bare _ (headNotWs_append_plain hbne hb _),
    sub1Go_plain _ hb hbne _ true,
    nlfence_nl_split, sub1Go_nl,
    sub1Go_fence_bare _ (headNotWs_append_plain hccne hcc _),
    sub1Go_plain _ hcc hccne _ true,
    nlfence_split, sub1Go_nl, sub1Go_final_fence]
  rw [sub2Go_plain a ha]
  simp only [List.cons_append]
  rw [sub2Go_nl_cons b0 (plain_not_btick hb0.1) _,
    sub2Go_step b0 (plain_not_nl hb0.1), sub2Go_plain bs hb0.2,
    sub2Go_nl_cons c0 (plain_not_btick hc0.1) _,
    sub2Go_step c0 (plain_not_nl hc0.1), sub2Go_plain ccs hc0.2,
    ← nlfence_split, sub2Go_final_fence]
  simp only [List.append_nil]
  apply sub3strip_no_fence
  · intro x hx
    simp only [List.mem_append, List.mem_cons] at hx
    have hplain : ∀ y : Char, plainChar y = true → (y == btick) = false := fun y hy =>
      plain_not_btick hy
    rw [List.all_eq_true] at ha
    have hbs := hb0.2
    rw [List.all_eq_true] at hbs
    have hccs := hc0.2
    rw [List.all_eq_true] at hccs
    rcases hx with hx | hx
    · exact hplain x (ha x hx)
    · rcases hx with he | he | hx
      · rw [he]; decide
      · rw [he]; exact hplain b0 hb0.1
      · rcases hx with hx | he | he | hx
        · exact hplain x (hbs x hx)
        · rw [he]; decide
        · rw [he]; exact hplain c0 hc0.1
        · exact hplain x (hccs x hx)
  · exact headNotWs_append_plain hane ha _
  · have e : a ++ '\n' :: b0 :: (bs ++ '\n' :: c0 :: ccs)
        = (a ++ '\n' :: b0 :: (bs ++ ['\n'])) ++ (c0 :: ccs) := by simp
    rw [e]
    exact headNotWs_reverse_append _ _ (by simp) hcc

/-- C1 amended, witness at a concrete instance. -/
theorem c1_global_fence_removal_witness :
    sanitize ("```hcl\n".toList ++ "A".toList ++ "\n```\n".toList ++ "B".toList
        ++ "\n```\n".toList ++ "C".toList ++ "\n```".toList)
      = "A".toList ++ '\n' :: "B".toList ++ '\n' :: "C".toList :=
  c1_global_fence_removal "A".toList "B".toList "C".toList
    (by decide) (by decide) (by decide) (by decide) (by decide) (by decide)

/-- C4, counterexample: the sanitizer is not idempotent.  On
`"  ```\nfoo"` the first pass removes nothing (the fence is not at a line
start because of the leading spaces) but the final `strip` exposes the
fence, so a second pass removes it: `sanitize x = "```\nfoo"` while
`sanitize (sanitize x) = "foo"`. -/
theorem c4_counterexample :
    sanitize (sanitize ("  ```\nfoo".toList)) ≠ sanitize ("  ```\nfoo".toList) := by
  decide

/-- C4 (amended): the sanitizer is idempotent on every input that contains
no fence marker; on such input it reduces to `strip`, which is idempotent.
In general idempotence fails (see the counterexample): a fence line
preceded by whitespace survives the substitutions of the first pass, and
the pass's final trim exposes it to a second pass. -/
theorem c4_idempotent_on_fence_free (x : List Char)
    (h : containsSeq ("```".toList) x = false) :
    sanitize (sanitize x) = sanitize x := by
  have h1 : sanitize x = pyStrip x := sanitize_eq_pyStrip h
  have h2 : containsSeq ("```".toList) (pyStrip x) = false :=
    containsSeq_false_mono (pyStrip_infix_self x) h
  rw [h1, sanitize_eq_pyStrip h2, pyStrip_idem]

/-- C4 amended, witness at a concrete instance. -/
theorem c4_idempotent_on_fence_free_witness :
    sanitize (sanitize ("  resource x  ".toList)) = sanitize ("  resource x  ".toList) :=
  c4_idempotent_on_fence_free ("  resource x  ".toList) (by decide)

/-- C6, counterexample: the hint match is case-sensitive (`re.IGNORECASE`
is not set), so a leading fence line with an uppercase hint is not
removed: `sanitize "```HCL\nfoo"` keeps the fence line intact, while the
lowercase variant is stripped. -/
theorem c6_counterexample :
    sanitize ("```HCL\nfoo".toList) = "```HCL\nfoo".toList
      ∧ sanitize ("```hcl\nfoo".toList) = "foo".toList := by
  decide

/-- C6 (amended): the leading fence line is removed only for the exact
lowercase hints `hcl`, `terraform`, `tf` or no hint at all: for any such
hint and any remainder not starting with whitespace, sanitizing
`"```<hint>\n" ++ rest` equals sanitizing `rest`. -/
theorem c6_lowercase_hint_removed (hint : String) (rest : List Char)
    (hh : hint ∈ (["hcl", "terraform", "tf", ""] : List String))
    (hr : headNotWs rest = true) :
    sanitize (("```" ++ hint ++ "\n").toList ++ rest) = sanitize rest := by
  unfold sanitize
  fin_cases hh
  · have e : (("```" ++ "hcl" ++ "\n").toList : List Char) = "```hcl\n".toList := by decide
    rw [e, sub1Go_fence_hcl rest hr]
  · have e : (("```" ++ "terraform" ++ "\n").toList : List Char) = "```terraform\n".toList := by
      decide
    rw [e, sub1Go_fence_terraform rest hr]
  · have e : (("```" ++ "tf" ++ "\n").toList : List Char) = "```tf\n".toList := by decide
    rw [e, sub1Go_fence_tf rest hr]
  · have e : (("```" ++ "" ++ "\n").toList : List Char) = "```\n".toList := by decide
    rw [e, sub1Go_fence_bare rest hr]

/-- C6 amended, witness at a concrete instance. -/
theorem c6_lowercase_hint_removed_witness :
    sanitize (("```" ++ "hcl" ++ "\n").toList ++ "foo".toList) = sanitize ("foo".toList) :=
  c6_lowercase_hint_removed "hcl" "foo".toList (by decide) (by decide)

/-- C7: the sanitizer is a total function (it is defined for every input
string and cannot raise); on input containing no fence marker it returns
the input trimmed of leading and trailing whitespace only, and on the
empty input it returns the empty string. -/
theorem c7_sanitizer_total (x : List Char)
    (h : containsSeq ("```".toList) x = false) :
    sanitize x = pyStrip x ∧ sanitize ([] : List Char) = [] :=
  ⟨sanitize_eq_pyStrip h, by decide⟩

/-- C7, witness at a concrete instance. -/
theorem c7_sanitizer_total_witness :
    sanitize ("plain text, no fences".toList) = pyStrip ("plain text, no fences".toList)
      ∧ sanitize ([] : List Char) = [] :=
  c7_sanitizer_total ("plain text, no fences".toList) (by decide)

/-! ## Helper lemmas: the constructor registry -/

lemma lookup_none_of_not_mem {t : String} (ht : t ∉ knownTags) :
    constructorTable.lookup t = none := by
  have hgen : ∀ l : List (String × Handler), t ∉ l.map Prod.fst → l.lookup t = none := by
    intro l
    induction l with
    | nil => intro _; rfl
    | cons p ps ih =>
      obtain ⟨k, b⟩ := p
      intro hmem
      simp only [List.map_cons, List.mem_cons] at hmem
      push_neg at hmem
      obtain ⟨h1, h2⟩ := hmem
      have hk : (t == k) = false := by
        cases hkt : t == k with
        | false => rfl
        | true => exact absurd (show t = k by simpa using hkt) h1
      simp [List.lookup, hk, ih h2]
  exact hgen constructorTable ht

mutual

/-- A document containing tag `t` outside the registry fails to
construct. -/
theorem hasTag_err (t : String) (ht : t ∉ knownTags) :
    ∀ n : Node, hasTag t n = true → ∃ e, construct n = Except.error e
  | Node.scalar u v => fun h => by
    have hu : u = some t := by simpa [hasTag] using h
    subst hu
    exact ⟨.unknownTag t, by simp [construct, lookup_none_of_not_mem ht]⟩
  | Node.seq u items => fun h => by
    simp only [hasTag, Bool.or_eq_true] at h
    rcases h with h | h
    · have hu : u = some t := by simpa using h
      subst hu
      exact ⟨.unknownTag t, by simp [construct, lookup_none_of_not_mem ht]⟩
    · obtain ⟨e, he⟩ := hasTagList_err t ht items h
      cases u with
      | none => exact ⟨e, by simp [construct, he, Except.map]⟩
      | some w =>
        cases hw : constructorTable.lookup w with
        | none => exact ⟨.unknownTag w, by simp [construct, hw]⟩
        | some hd =>
          cases hd with
          | seqH long => exact ⟨e, by simp [construct, hw, he, Except.map]⟩
          | scalarH long => exact ⟨.expectedScalar w, by simp [construct, hw]⟩
          | getAttH => exact ⟨.expectedScalar w, by simp [construct, hw]⟩
  | Node.map u pairs => fun h => by
    simp only [hasTag, Bool.or_eq_true] at h
    rcases h with h | h
    · have hu : u = some t := by simpa using h
      subst hu
      exact ⟨.unknownTag t, by simp [construct, lookup_none_of_not_mem ht]⟩
    · obtain ⟨e, he⟩ := hasTagPairs_err t ht pairs h
      cases u with
      | none => exact ⟨e, by simp [construct, he, Except.map]⟩
      | some w =>
        cases hw : constructorTable.lookup w with
        | none => exact ⟨.unknownTag w, by simp [construct, hw]⟩
        | some hd =>
          cases hd with
          | seqH long => exact ⟨.expectedSequence w, by simp [construct, hw]⟩
          | scalarH long => exact ⟨.expectedScalar w, by simp [construct, hw]⟩
          | getAttH => exact ⟨.expectedScalar w, by simp [construct, hw]⟩

/-- Lemma `hasTag_err` lifted to sequences. -/
theorem hasTagList_err (t : String) (ht : t ∉ knownTags) :
    ∀ ns : List Node, hasTagList t ns = true → ∃ e, constructList ns = Except.error e
  | [] => fun h => by simp [hasTagList] at h
  | n :: ns => fun h => by
    simp only [hasTagList, Bool.or_eq_true] at h
    cases hcn : construct n with
    | error e => exact ⟨e, by simp [constructList, hcn, Bind.bind, Except.bind]⟩
    | ok v =>
      rcases h with h | h
      · obtain ⟨e, he⟩ := hasTag_err t ht n h
        simp [he] at hcn
      · obtain ⟨e, he⟩ := hasTagList_err t ht ns h
        exact ⟨e, by simp [constructList, hcn, he, Bind.bind, Except.bind]⟩

/-- Lemma `hasTag_err` lifted to mapping pairs. -/
theorem hasTagPairs_err (t : String) (ht : t ∉ knownTags) :
    ∀ ps : List (String × Node), hasTagPairs t ps = true
      → ∃ e, constructPairs ps = Except.error e
  | [] => fun h => by simp [hasTagPairs] at h
  | (k, n) :: ps => fun h => by
    simp only [hasTagPairs, Bool.or_eq_true] at h
    cases hcn : construct n with
    | error e => exact ⟨e, by simp [constructPairs, hcn, Bind.bind, Except.bind]⟩
    | ok v =>
      rcases h with h | h
      · obtain ⟨e, he⟩ := hasTag_err t ht n h
        simp [he] at hcn
      · obtain ⟨e, he⟩ := hasTagPairs_err t ht ps h
        exact ⟨e, by simp [constructPairs, hcn, he, Bind.bind, Except.bind]⟩

end

mutual

/-- On untagged documents the extended loader agrees with the unmodified
one. -/
theorem construct_eq_basic : ∀ n : Node, noTags n = true → construct n = basicConstruct n
  | Node.scalar u v => fun h => by
    have hu : u = none := by simpa [noTags, Option.isNone_iff_eq_none] using h
    subst hu
    simp [construct, basicConstruct]
  | Node.seq u items => fun h => by
    simp only [noTags, Bool.and_eq_true, Option.isNone_iff_eq_none] at h
    obtain ⟨hu, hitems⟩ := h
    subst hu
    simp [construct, basicConstruct, constructList_eq_basic items hitems]
  | Node.map u pairs => fun h => by
    simp only [noTags, Bool.and_eq_true, Option.isNone_iff_eq_none] at h
    obtain ⟨hu, hpairs⟩ := h
    subst hu
    simp [construct, basicConstruct, constructPairs_eq_basic pairs hpairs]

/-- Lemma `construct_eq_basic` lifted to sequences. -/
theorem constructList_eq_basic : ∀ ns : List Node, noTagsList ns = true
    → constructList ns = basicConstructList ns
  | [] => fun _ => rfl
  | n :: ns => fun h => by
    simp only [noTagsList, Bool.and_eq_true] at h
    obtain ⟨hn, hns⟩ := h
    simp [constructList, basicConstructList, construct_eq_basic n hn,
      constructList_eq_basic ns hns]

/-- Lemma `construct_eq_basic` lifted to mapping pairs. -/
theorem constructPairs_eq_basic : ∀ ps : List (String × Node), noTagsPairs ps = true
    → constructPairs ps = basicConstructPairs ps
  | [] => fun _ => rfl
  | (k, n) :: ps => fun h => by
    simp only [noTagsPairs, Bool.and_eq_true] at h
    obtain ⟨hn, hps⟩ := h
    simp [constructPairs, basicConstructPairs, construct_eq_basic n hn,
      constructPairs_eq_basic ps hps]

end

/-! ## Claim theorems for the loader, the Bedrock call and the CLI -/

/-- C2: each of the sixteen recognised tags expands to the single-key
mapping `{long_form_name: argument}`: the five scalar-argument tags keep
the scalar payload verbatim, `!GetAtt` splits it on `'.'`, and the ten
sequence-argument tags take the recursively constructed list of
sub-nodes. -/
theorem c2_tag_expansion (s : List Char) (items : List Node) (vals : List Value)
    (h : constructList items = .ok vals) :
    construct (.scalar (some "!Ref") s) = .ok (.vmap [("Ref", .str s)])
    ∧ construct (.scalar (some "!Sub") s) = .ok (.vmap [("Fn::Sub", .str s)])
    ∧ construct (.scalar (some "!Base64") s) = .ok (.vmap [("Fn::Base64", .str s)])
    ∧ construct (.scalar (some "!GetAZs") s) = .ok (.vmap [("Fn::GetAZs", .str s)])
    ∧ construct (.scalar (some "!ImportValue") s) = .ok (.vmap [("Fn::ImportValue", .str s)])
    ∧ construct (.scalar (some "!GetAtt") s)
        = .ok (.vmap [("Fn::GetAtt", .vseq ((splitOnCh '.' s).map Value.str))])
    ∧ construct (.seq (some "!Join") items) = .ok (.vmap [("Fn::Join", .vseq vals)])
    ∧ construct (.seq (some "!Select") items) = .ok (.vmap [("Fn::Select", .vseq vals)])
    ∧ construct (.seq (some "!Split") items) = .ok (.vmap [("Fn::Split", .vseq vals)])
    ∧ construct (.seq (some "!Cidr") items) = .ok (.vmap [("Fn::Cidr", .vseq vals)])
    ∧ construct (.seq (some "!FindInMap") items) = .ok (.vmap [("Fn::FindInMap", .vseq vals)])
    ∧ construct (.seq (some "!If") items) = .ok (.vmap [("Fn::If", .vseq vals)])
    ∧ construct (.seq (some "!Equals") items) = .ok (.vmap [("Fn::Equals", .vseq vals)])
    ∧ construct (.seq (some "!Not") items) = .ok (.vmap [("Fn::Not", .vseq vals)])
    ∧ construct (.seq (some "!And") items) = .ok (.vmap [("Fn::And", .vseq vals)])
    ∧ construct (.seq (some "!Or") items) = .ok (.vmap [("Fn::Or", .vseq vals)]) := by
  refine ⟨?_, ?_, ?_, ?_, ?_, ?_, ?_, ?_, ?_, ?_, ?_, ?_, ?_, ?_, ?_, ?_⟩ <;>
    simp [construct, constructorTable, List.lookup, h, Except.map]

/-- C2, witness at a concrete instance. -/
theorem c2_tag_expansion_witness :
    construct (.scalar (some "!Ref") "x".toList) = .ok (.vmap [("Ref", .str "x".toList)])
    ∧ construct (.scalar (some "!Sub") "x".toList) = .ok (.vmap [("Fn::Sub", .str "x".toList)])
    ∧ construct (.scalar (some "!Base64") "x".toList)
        = .ok (.vmap [("Fn::Base64", .str "x".toList)])
    ∧ construct (.scalar (some "!GetAZs") "x".toList)
        = .ok (.vmap [("Fn::GetAZs", .str "x".toList)])
    ∧ construct (.scalar (some "!ImportValue") "x".toList)
        = .ok (.vmap [("Fn::ImportValue", .str "x".toList)])
    ∧ construct (.scalar (some "!GetAtt") "x".toList)
        = .ok (.vmap [("Fn::GetAtt", .vseq ((splitOnCh '.' "x".toList).map Value.str))])
    ∧ construct (.seq (some "!Join") []) = .ok (.vmap [("Fn::Join", .vseq [])])
    ∧ construct (.seq (some "!Select") []) = .ok (.vmap [("Fn::Select", .vseq [])])
    ∧ construct (.seq (some "!Split") []) = .ok (.vmap [("Fn::Split", .vseq [])])
    ∧ construct (.seq (some "!Cidr") []) = .ok (.vmap [("Fn::Cidr", .vseq [])])
    ∧ construct (.seq (some "!FindInMap") []) = .ok (.vmap [("Fn::FindInMap", .vseq [])])
    ∧ construct (.seq (some "!If") []) = .ok (.vmap [("Fn::If", .vseq [])])
    ∧ construct (.seq (some "!Equals") []) = .ok (.vmap [("Fn::Equals", .vseq [])])
    ∧ construct (.seq (some "!Not") []) = .ok (.vmap [("Fn::Not", .vseq [])])
    ∧ construct (.seq (some "!And") []) = .ok (.vmap [("Fn::And", .vseq [])])
    ∧ construct (.seq (some "!Or") []) = .ok (.vmap [("Fn::Or", .vseq [])]) :=
  c2_tag_expansion "x".toList [] [] (by simp [constructList])

/-- C3: the `!GetAtt` handler splits the scalar payload on every `'.'`:
`"A.B"` gives `["A", "B"]`, `"A.B.C"` gives `["A", "B", "C"]`, and a
payload without `'.'` gives the one-element list holding the payload;
construction never fails. -/
theorem c3_getatt_split (s : List Char) (hs : ∀ ch ∈ s, ch ≠ '.') :
    construct (.scalar (some "!GetAtt") "A.B".toList)
        = .ok (.vmap [("Fn::GetAtt", .vseq [.str "A".toList, .str "B".toList])])
    ∧ construct (.scalar (some "!GetAtt") "A.B.C".toList)
        = .ok (.vmap [("Fn::GetAtt", .vseq [.str "A".toList, .str "B".toList, .str "C".toList])])
    ∧ construct (.scalar (some "!GetAtt") s)
        = .ok (.vmap [("Fn::GetAtt", .vseq [.str s])]) := by
  have hsplit : splitOnCh '.' s = [s] := by
    induction s with
    | nil => rfl
    | cons c cs ih =>
      have hc : (c == '.') = false := by
        cases hdot : c == '.' with
        | false => rfl
        | true => exact absurd (by simpa using hdot) (hs c (List.mem_cons_self c cs))
      have ihr := ih (fun ch hch => hs ch (List.mem_cons_of_mem c hch))
      simp only [splitOnCh]
      rw [ihr, hc]
      simp
  refine ⟨?_, ?_, ?_⟩ <;>
    simp [construct, constructorTable, List.lookup, splitOnCh, hsplit]

/-- C3, witness at a concrete instance. -/
theorem c3_getatt_split_witness :
    construct (.scalar (some "!GetAtt") "A.B".toList)
        = .ok (.vmap [("Fn::GetAtt", .vseq [.str "A".toList, .str "B".toList])])
    ∧ construct (.scalar (some "!GetAtt") "A.B.C".toList)
        = .ok (.vmap [("Fn::GetAtt", .vseq [.str "A".toList, .str "B".toList, .str "C".toList])])
    ∧ construct (.scalar (some "!GetAtt") "xy".toList)
        = .ok (.vmap [("Fn::GetAtt", .vseq [.str "xy".toList])]) :=
  c3_getatt_split "xy".toList (by decide)

/-- C5: a tag outside the sixteen registered ones makes construction fail
with an error naming that tag, whatever the node kind; and any document
containing such a tag anywhere fails to construct (it is never silently
accepted or dropped). -/
theorem c5_unknown_tag_error (t : String) (s : List Char) (items : List Node)
    (pairs : List (String × Node)) (doc : Node)
    (ht : t ∉ knownTags) (hdoc : hasTag t doc = true) :
    construct (.scalar (some t) s) = .error (.unknownTag t)
    ∧ construct (.seq (some t) items) = .error (.unknownTag t)
    ∧ construct (.map (some t) pairs) = .error (.unknownTag t)
    ∧ ∃ e, construct doc = Except.error e := by
  have hl := lookup_none_of_not_mem ht
  exact ⟨by simp [construct, hl], by simp [construct, hl], by simp [construct, hl],
    hasTag_err t ht doc hdoc⟩

/-- C5, witness at a concrete instance. -/
theorem c5_unknown_tag_error_witness :
    construct (.scalar (some "!Foo") "x".toList) = .error (.unknownTag "!Foo")
    ∧ construct (.seq (some "!Foo") []) = .error (.unknownTag "!Foo")
    ∧ construct (.map (some "!Foo") []) = .error (.unknownTag "!Foo")
    ∧ ∃ e, construct (.scalar (some "!Foo") "y".toList) = Except.error e :=
  c5_unknown_tag_error "!Foo" "x".toList [] [] (.scalar (some "!Foo") "y".toList)
    (by decide) (by simp [hasTag])

/-- C8: registering the sixteen tag handlers does not change the parsing
of documents that use only plain (untagged) mappings, sequences and
scalars: on such documents the extended loader and the unmodified loader
produce the same tree. -/
theorem c8_plain_docs_unchanged (n : Node) (h : noTags n = true) :
    construct n = basicConstruct n :=
  construct_eq_basic n h

/-- C8, witness at a concrete instance. -/
theorem c8_plain_docs_unchanged_witness :
    construct (.map none [("Resources", .seq none [.scalar none "a".toList])])
      = basicConstruct (.map none [("Resources", .seq none [.scalar none "a".toList])]) :=
  c8_plain_docs_unchanged (.map none [("Resources", .seq none [.scalar none "a".toList])])
    (by simp [noTags, noTagsList, noTagsPairs])

/-- C9: when the Bedrock exchange fails, `convert` prints the progress
line and exactly one diagnostic line, writes neither the translation file
nor the report, invokes the endpoint exactly once (no retry), and
propagates the same exception. -/
theorem c9_bedrock_failure_aborts (cftFile stem outputDir : String) (original e : List Char) :
    (convert cftFile stem outputDir original (.error e)).written = []
    ∧ (convert cftFile stem outputDir original (.error e)).outcome = .error e
    ∧ (convert cftFile stem outputDir original (.error e)).printed
        = [("Calling Bedrock to convert " ++ cftFile ++ "...").toList, diagLine e]
    ∧ (convert cftFile stem outputDir original (.error e)).bedrockCalls = 1 := by
  refine ⟨rfl, rfl, rfl, rfl⟩

/-- C10: when `--region` is the final command-line argument (its first
occurrence is the last entry, so no value follows it), the program
silently keeps the default region `us-east-1` instead of reporting a
usage error. -/
theorem c10_region_flag_fallback (argv : List String)
    (h1 : "--region" ∈ argv) (h2 : argv.indexOf "--region" + 1 = argv.length) :
    mainRegion argv = "us-east-1" := by
  unfold mainRegion
  rw [if_pos h1]
  simp [h2]

/-- C10, witness at a concrete instance. -/
theorem c10_region_flag_fallback_witness :
    mainRegion ["conv.py", "t.yaml", "out", "--region"] = "us-east-1" :=
  c10_region_flag_fallback ["conv.py", "t.yaml", "out", "--region"] (by decide) (by decide)

end CftToTf
